import Mathlib

/-!
Verification development for the animal-share backend data-access layer.

The definitions below are a shallow embedding of the repository's storage
layer (storage.ts, referenced here as src/unnamed/part_000) over the
relational schema (src/api/schema.ts).  Tables are lists of rows, SQL
queries are list pipelines, and drizzle/Postgres behaviours that the code
relies on (left joins, GROUP BY/HAVING, LIMIT/OFFSET, transactions,
ON CONFLICT, enum checks) are modelled explicitly where the code exercises
them.  Timestamps are natural numbers; uuid/varchar identifiers are
strings.
-/

namespace AnimalShare

/-- users table (schema.ts): id primary key, optional profile fields. -/
structure User where
  id : String
  email : Option String
  firstName : Option String
  lastName : Option String
  profileImageUrl : Option String
deriving DecidableEq, Repr

/-- tags table (schema.ts): id primary key, name, category (pg enum). -/
structure Tag where
  id : String
  name : String
  category : String
deriving DecidableEq, Repr

/-- posts table (schema.ts). -/
structure Post where
  id : String
  userId : String
  imageUrl : String
  caption : Option String
  createdAt : Nat
deriving DecidableEq, Repr

/-- post_tags junction table (schema.ts).  Note that schema.ts declares
only a plain (non-unique) index on (postId, tagId). -/
structure PostTag where
  postId : String
  tagId : String
deriving DecidableEq, Repr

/-- favorites table (schema.ts).  schema.ts declares no primary key and
only a plain (non-unique) index named favorites_pk on (userId, postId). -/
structure Favorite where
  userId : String
  postId : String
  createdAt : Nat
deriving DecidableEq, Repr

/-- user_exclude_tags table (schema.ts), the zoning exclusions. -/
structure UserExcludeTag where
  userId : String
  tagId : String
deriving DecidableEq, Repr

/-- The relational state: one list of rows per table. -/
structure DB where
  users : List User
  tags : List Tag
  posts : List Post
  postTags : List PostTag
  favorites : List Favorite
  userExcludeTags : List UserExcludeTag
deriving DecidableEq, Repr

/-- The four values of the pg enum tag_category (schema.ts). -/
def tagCategoryEnum : List String := ["分類", "角度", "パーツ", "自由"]

/-! ### Taxonomy store operations (storage.ts) -/

/-- The select step of getOrCreateTag (storage.ts): first row of
tags where name and category match exactly. -/
def selectTagByNameCategory (db : DB) (name category : String) : Option Tag :=
  db.tags.find? (fun t => t.name == name && t.category == category)

/-- createTag (storage.ts): a plain INSERT returning the new row.  The
tags table carries no unique constraint on (name, category): schema.ts
creates only the non-unique index named unique_name_category (drizzle
index(), not uniqueIndex()), so the insert succeeds unconditionally. -/
def createTag (db : DB) (t : Tag) : DB :=
  { db with tags := db.tags ++ [t] }

/-- getOrCreateTag (storage.ts) run in isolation: select by
(name, category); if a row exists return it, otherwise insert one. -/
def getOrCreateTag (db : DB) (name category newId : String) : DB × Tag :=
  match selectTagByNameCategory db name category with
  | some t => (db, t)
  | none =>
    let t : Tag := { id := newId, name := name, category := category }
    (createTag db t, t)

/-- Two concurrent getOrCreateTag(name, category) calls, interleaved as
select A, select B, insert A, insert B.  Each caller executes the select
step of getOrCreateTag against the state preceding both inserts, as the
database performs no coordination between the two statements of one call
(getOrCreateTag wraps them in no transaction, and the check-then-insert
is not protected by any unique constraint). -/
def getOrCreateTagRace (db : DB) (name category idA idB : String) : DB :=
  let foundA := selectTagByNameCategory db name category
  let foundB := selectTagByNameCategory db name category
  let db1 :=
    match foundA with
    | some _ => db
    | none => createTag db { id := idA, name := name, category := category }
  match foundB with
  | some _ => db1
  | none => createTag db1 { id := idB, name := name, category := category }

/-- validatePostTags (storage.ts): reject the empty list, select the tags
whose id is in tagIds, reject when the row count differs from
tagIds.length, then require some selected tag of category 分類. -/
def validatePostTags (db : DB) (tagIds : List String) : Bool :=
  if tagIds.length == 0 then false
  else
    let tagResults := db.tags.filter (fun t => tagIds.contains t.id)
    if tagResults.length != tagIds.length then false
    else tagResults.any (fun t => t.category == "分類")

/-- The behaviour claimed by the specification for validateForPost, in
the specification's own words: false if tagIds is empty, false if any id
does not resolve to an existing tag, false if none of the resolved tags
belongs to the classification category, true otherwise. -/
def specValidateForPost (db : DB) (tagIds : List String) : Bool :=
  if tagIds.isEmpty then false
  else if !(tagIds.all (fun i => db.tags.any (fun t => t.id == i))) then false
  else db.tags.any (fun t => tagIds.contains t.id && t.category == "分類")

/-- getTagsByCategory (storage.ts): select tags where category matches,
ordered by name.  The category value reaches Postgres as a value of the
enum type tag_category; a string outside the enum makes the statement
fail (invalid input value for the enum), which this embedding returns as
an error.  ORDER BY is modelled by a stable insertion sort; the theorems
below do not depend on the order among ties. -/
def getTagsByCategory (db : DB) (category : String) : Except String (List Tag) :=
  if tagCategoryEnum.contains category then
    Except.ok
      ((db.tags.filter (fun t => t.category == category)).insertionSort
        (fun a b => a.name ≤ b.name))
  else
    Except.error "invalid input value for enum tag_category"

/-- getAllTags (storage.ts): all tags ordered by (category, name). -/
def getAllTags (db : DB) : List Tag :=
  db.tags.insertionSort
    (fun a b => a.category < b.category ∨ (a.category = b.category ∧ a.name ≤ b.name))

/-- Response of the GET /api/tags handler (routes.ts): status code plus
body rows (empty body on error).  The handler forwards a present,
non-empty category query parameter to getTagsByCategory unvalidated
(cast as any) and maps any thrown error to a 500 response; with no
category (or the JS-falsy empty string) it returns all tags. -/
structure TagsResponse where
  status : Nat
  body : List Tag
deriving DecidableEq, Repr

/-- GET /api/tags (routes.ts). -/
def getTagsRoute (db : DB) (category : Option String) : TagsResponse :=
  match category with
  | some c =>
    if c.isEmpty then { status := 200, body := getAllTags db }
    else
      match getTagsByCategory db c with
      | Except.ok ts => { status := 200, body := ts }
      | Except.error _ => { status := 500, body := [] }
  | none => { status := 200, body := getAllTags db }

/-! ### Content and personalization store operations (storage.ts) -/

/-- createPost (storage.ts): one db.transaction inserting the post row
and, when tagIds is non-empty, one post_tags row per tag id.  A
post_tags insert violates the foreign key post_tags.tag_id → tags.id
exactly when the tag id has no row in tags; on such an error the
transaction rolls back and the returned state is the initial one. -/
def createPost (db : DB) (post : Post) (tagIds : List String) : DB × Option Post :=
  let afterPost := { db with posts := db.posts ++ [post] }
  if tagIds.length > 0 then
    if tagIds.all (fun i => db.tags.any (fun t => t.id == i)) then
      ({ afterPost with
          postTags := afterPost.postTags ++
            tagIds.map (fun i => { postId := post.id, tagId := i }) },
        some post)
    else (db, none)
  else (afterPost, some post)

/-- deletePost (storage.ts): DELETE FROM posts WHERE id = postId AND
user_id = callerId RETURNING, then report whether any row came back. -/
def deletePost (db : DB) (id userId : String) : DB × Bool :=
  ({ db with posts := db.posts.filter (fun p => !(p.id == id && p.userId == userId)) },
    decide (0 < (db.posts.filter (fun p => p.id == id && p.userId == userId)).length))

/-- addFavorite (storage.ts): INSERT ... ON CONFLICT DO NOTHING.  The
favorites table declares no primary key and no unique constraint
(schema.ts creates only the non-unique index favorites_pk), so the
conflict clause has no arbiter to fire on and the insert always appends
a row. -/
def addFavorite (db : DB) (userId postId : String) (now : Nat) : DB :=
  { db with favorites := db.favorites ++ [{ userId := userId, postId := postId, createdAt := now }] }

/-! ### The feed query (getPosts / getPost in storage.ts)

getPosts builds one SELECT over posts left-joined to users, post_tags,
tags and (when a viewer is given) favorites, then applies LIMIT/OFFSET
to the resulting join rows and finally collapses the rows into one
record per post in JS.  Each row of the SQL result is one JoinRow. -/

/-- One row of the join built by getPosts/getPost: the post row joined to
its owner (left join on users), one of its post_tags rows resolved to a
tag (left join, so a post with no tags yields a single row with no tag),
and the computed isFavorited column. -/
structure JoinRow where
  post : Post
  user : Option User
  tag : Option Tag
  isFavorited : Bool
deriving DecidableEq, Repr

/-- The tag column values produced for one post by
leftJoin(postTags, posts.id = postTags.postId) followed by
leftJoin(tags, postTags.tagId = tags.id): one entry per post_tags row of
the post (resolved against tags, none when the tag id has no row), or a
single none when the post has no post_tags row. -/
def tagJoinOpts (db : DB) (p : Post) : List (Option Tag) :=
  match db.postTags.filter (fun pt => pt.postId == p.id) with
  | [] => [none]
  | pts => pts.map (fun pt => db.tags.find? (fun t => t.id == pt.tagId))

/-- The join rows of one post before the favorites join: owner resolved
by leftJoin(users, posts.userId = users.id), isFavorited false (the SQL
expression is the literal false when no viewer is given, and the CASE on
the favorites join evaluated below when one is). -/
def baseRowsForPost (db : DB) (p : Post) : List JoinRow :=
  (tagJoinOpts db p).map (fun t =>
    { post := p, user := db.users.find? (fun w => w.id == p.userId),
      tag := t, isFavorited := false })

/-- The join rows of one post.  When a viewer is given, getPosts also
left-joins favorites on (favorites.postId = posts.id AND
favorites.userId = viewer): no matching favorites row keeps the base
rows with isFavorited false (CASE WHEN favorites.userId IS NOT NULL),
matching rows fan out and set it true. -/
def joinRowsForPost (db : DB) (p : Post) (userId : Option String) : List JoinRow :=
  match userId with
  | none => baseRowsForPost db p
  | some uid =>
    match db.favorites.filter (fun f => f.postId == p.id && f.userId == uid) with
    | [] => baseRowsForPost db p
    | fs => fs.flatMap (fun _ => (baseRowsForPost db p).map (fun r => { r with isFavorited := true }))

/-- The include-filter subquery of getPosts (storage.ts): SELECT postId
FROM post_tags WHERE tagId IN tagIds GROUP BY postId HAVING count(*) =
tagIds.length.  GROUP BY yields each post id once; its output order is
unspecified and only membership in the subquery result matters. -/
def postIdsWithAllTags (db : DB) (tagIds : List String) : List String :=
  let matching := db.postTags.filter (fun pt => tagIds.contains pt.tagId)
  ((matching.map (fun pt => pt.postId)).dedup).filter
    (fun pid => (matching.filter (fun pt => pt.postId == pid)).length == tagIds.length)

/-- The exclusion subqueries of getPosts (storage.ts): SELECT postId FROM
post_tags WHERE tagId IN the given id list. -/
def postIdsWithAnyTag (db : DB) (excludeIds : List String) : List String :=
  (db.postTags.filter (fun pt => excludeIds.contains pt.tagId)).map (fun pt => pt.postId)

/-- The viewer-scoped excluded tag ids (storage.ts): SELECT tagId FROM
user_exclude_tags WHERE userId = viewer. -/
def userExcludedTagIds (db : DB) (uid : String) : List String :=
  (db.userExcludeTags.filter (fun e => e.userId == uid)).map (fun e => e.tagId)

/-- The WHERE clause getPosts installs for a non-empty includeTagIds
list: posts.id IN postIdsWithAllTags. -/
def includeClause (db : DB) (tagIds : Option (List String)) : Option (String → Bool) :=
  match tagIds with
  | some ts => if ts.isEmpty then none
               else some (fun pid => (postIdsWithAllTags db ts).contains pid)
  | none => none

/-- The WHERE clause getPosts installs for a non-empty excludeTagIds
list: posts.id NOT IN postIdsWithAnyTag. -/
def excludeClause (db : DB) (excludeTagIds : Option (List String)) : Option (String → Bool) :=
  match excludeTagIds with
  | some ex => if ex.isEmpty then none
               else some (fun pid => !((postIdsWithAnyTag db ex).contains pid))
  | none => none

/-- The WHERE clause getPosts installs whenever a viewer is given:
posts.id NOT IN the posts carrying one of the viewer's stored excluded
tags. -/
def userExcludeClause (db : DB) (userId : Option String) : Option (String → Bool) :=
  userId.map (fun uid =>
    fun pid => !((postIdsWithAnyTag db (userExcludedTagIds db uid)).contains pid))

/-- The WHERE clause actually in effect when the query runs.  A drizzle
select builder keeps a single where slot and each .where call replaces
the clause installed before (the repository silences the resulting type
errors with ts-ignore markers), so of the three conditional .where calls
in getPosts only the last one that fires survives: the viewer clause
when a viewer is given, else the request exclusion clause when
excludeTagIds is non-empty, else the include clause when tagIds is
non-empty. -/
def whereSlot (db : DB) (tagIds : Option (List String)) (userId : Option String)
    (excludeTagIds : Option (List String)) : Option (String → Bool) :=
  (userExcludeClause db userId).orElse (fun _ =>
    (excludeClause db excludeTagIds).orElse (fun _ => includeClause db tagIds))

/-- Whether a join row of the given post id passes the query's WHERE. -/
def feedRowKeep (db : DB) (tagIds : Option (List String)) (userId : Option String)
    (excludeTagIds : Option (List String)) (pid : String) : Bool :=
  match whereSlot db tagIds userId excludeTagIds with
  | some c => c pid
  | none => true

/-- The join rows of the getPosts SELECT after its WHERE clause. -/
def feedRows (db : DB) (tagIds : Option (List String)) (userId : Option String)
    (excludeTagIds : Option (List String)) : List JoinRow :=
  (db.posts.flatMap (fun p => joinRowsForPost db p userId)).filter
    (fun r => feedRowKeep db tagIds userId excludeTagIds r.post.id)

/-- The denormalized record getPosts returns per post: the post columns,
its owner, its collected tags and the isFavorited flag. -/
structure PostWithTags where
  post : Post
  user : Option User
  tags : List Tag
  isFavorited : Bool
deriving DecidableEq, Repr

/-- The tag-collection step shared by the grouping loops of getPosts,
getPost and getUserFavorites (storage.ts): when the row resolved a tag
that the record has not collected yet, append it. -/
def collectTagStep (pw : PostWithTags) (row : JoinRow) : PostWithTags :=
  match row.tag with
  | some t =>
    if pw.tags.any (fun u => u.id == t.id) then pw
    else { pw with tags := pw.tags ++ [t] }
  | none => pw

/-- One step of the JS grouping loop of getPosts: a row whose post id is
new appends a record initialized from the row (and picks up the row's
tag); a row of a known post id only contributes its tag to that record. -/
def groupStep (acc : List PostWithTags) (r : JoinRow) : List PostWithTags :=
  if acc.any (fun pw => pw.post.id == r.post.id) then
    acc.map (fun pw => if pw.post.id == r.post.id then collectTagStep pw r else pw)
  else
    acc ++ [collectTagStep
      { post := r.post, user := r.user, tags := [], isFavorited := r.isFavorited } r]

/-- The JS grouping loop of getPosts (insertion-ordered map over the
paginated join rows). -/
def groupRows (rows : List JoinRow) : List PostWithTags :=
  rows.foldl groupStep []

/-- getPosts (storage.ts).  ORDER BY posts.createdAt DESC is modelled by
a stable insertion sort (the order among equal timestamps is unspecified
in SQL and no theorem below depends on it); LIMIT/OFFSET are applied to
the sorted join rows — not to distinct posts — exactly as the SQL query
does, and only then does the JS loop collapse rows into one record per
post. -/
def getPosts (db : DB) (limit offset : Nat) (tagIds : Option (List String))
    (userId : Option String) (excludeTagIds : Option (List String)) : List PostWithTags :=
  groupRows (((((feedRows db tagIds userId excludeTagIds).insertionSort
    (fun a b => b.post.createdAt ≤ a.post.createdAt)).drop offset).take limit))

/-- getPost (storage.ts): the same join restricted to one post id, with
no include/exclude filtering at all; no row means not found, otherwise
the first row seeds the record and every row contributes its tag. -/
def getPost (db : DB) (id : String) (userId : Option String) : Option PostWithTags :=
  match (db.posts.filter (fun p => p.id == id)).flatMap
      (fun p => joinRowsForPost db p userId) with
  | [] => none
  | r0 :: rest =>
    some ((r0 :: rest).foldl collectTagStep
      { post := r0.post, user := r0.user, tags := [], isFavorited := r0.isFavorited })

/-- The count of post_tags rows of the given post whose tag id lies in
the given list — the quantity the include filter's HAVING clause
compares against includeTagIds.length. -/
def matchCount (db : DB) (pid : String) (tagIds : List String) : Nat :=
  (db.postTags.filter (fun pt => pt.postId == pid && tagIds.contains pt.tagId)).length

/-! ### Concrete states used by the closed theorems below -/

/-- A sample user. -/
def sampleUser : User :=
  { id := "u1", email := none, firstName := none, lastName := none, profileImageUrl := none }

/-- 犬 (dog), a classification tag. -/
def sampleTagDog : Tag := { id := "t1", name := "犬", category := "分類" }

/-- 正面 (front), an angle tag. -/
def sampleTagFront : Tag := { id := "t2", name := "正面", category := "角度" }

/-- The newer post, carrying both sample tags. -/
def samplePostA : Post :=
  { id := "p1", userId := "u1", imageUrl := "i1", caption := none, createdAt := 2 }

/-- The older post, carrying only the 犬 tag. -/
def samplePostB : Post :=
  { id := "p2", userId := "u1", imageUrl := "i2", caption := none, createdAt := 1 }

/-- Sample state: one user, two tags, two posts; p1 (newest) carries
tags t1 and t2, p2 carries t1; no favorites, no stored exclusions. -/
def sampleDB : DB :=
  { users := [sampleUser], tags := [sampleTagDog, sampleTagFront],
    posts := [samplePostA, samplePostB],
    postTags := [{ postId := "p1", tagId := "t1" }, { postId := "p1", tagId := "t2" },
                 { postId := "p2", tagId := "t1" }],
    favorites := [], userExcludeTags := [] }

/-- sampleDB with user u1 having stored the 犬 tag as a zoning
exclusion. -/
def sampleDBZoned : DB :=
  { sampleDB with userExcludeTags := [{ userId := "u1", tagId := "t1" }] }

/-! ### Helper lemmas about the join and grouping pipeline -/

theorem contains_iff {l : List String} {a : String} : l.contains a = true ↔ a ∈ l := by
  simp

theorem post_of_mem_baseRowsForPost {db : DB} {p : Post} {r : JoinRow}
    (h : r ∈ baseRowsForPost db p) : r.post = p := by
  simp only [baseRowsForPost, List.mem_map] at h
  obtain ⟨t, _, rfl⟩ := h
  rfl

theorem baseRowsForPost_ne_nil (db : DB) (p : Post) : baseRowsForPost db p ≠ [] := by
  unfold baseRowsForPost tagJoinOpts
  split
  · simp
  · rename_i pts hpts
    simp only [ne_eq, List.map_eq_nil_iff]
    intro h
    exact hpts h

theorem post_of_mem_joinRowsForPost {db : DB} {p : Post} {uid : Option String} {r : JoinRow}
    (h : r ∈ joinRowsForPost db p uid) : r.post = p := by
  unfold joinRowsForPost at h
  match uid with
  | none => exact post_of_mem_baseRowsForPost h
  | some u =>
    dsimp only at h
    split at h
    · exact post_of_mem_baseRowsForPost h
    · rw [List.mem_flatMap] at h
      obtain ⟨f, _, hf⟩ := h
      rw [List.mem_map] at hf
      obtain ⟨b, hb, heq⟩ := hf
      rw [← heq]
      simpa using post_of_mem_baseRowsForPost hb

theorem joinRowsForPost_ne_nil (db : DB) (p : Post) (uid : Option String) :
    joinRowsForPost db p uid ≠ [] := by
  unfold joinRowsForPost
  match uid with
  | none => exact baseRowsForPost_ne_nil db p
  | some u =>
    dsimp only
    split
    · exact baseRowsForPost_ne_nil db p
    · rename_i fsne
      intro hnil
      obtain ⟨f, hf⟩ := List.exists_mem_of_ne_nil _ (fun h => fsne h)
      have hhead := List.flatMap_eq_nil_iff.mp hnil f hf
      rw [List.map_eq_nil_iff] at hhead
      exact baseRowsForPost_ne_nil db p hhead

theorem collectTagStep_post (pw : PostWithTags) (row : JoinRow) :
    (collectTagStep pw row).post = pw.post := by
  unfold collectTagStep
  split
  · split <;> rfl
  · rfl

theorem foldl_collectTagStep_post (rows : List JoinRow) (pw0 : PostWithTags) :
    (rows.foldl collectTagStep pw0).post = pw0.post := by
  induction rows generalizing pw0 with
  | nil => rfl
  | cons r rows ih => rw [List.foldl_cons, ih, collectTagStep_post]

theorem mem_ids_groupStep {acc : List PostWithTags} {r : JoinRow} {pid : String} :
    pid ∈ (groupStep acc r).map (fun pw => pw.post.id) ↔
      pid ∈ acc.map (fun pw => pw.post.id) ∨ pid = r.post.id := by
  unfold groupStep
  by_cases h : acc.any (fun pw => pw.post.id == r.post.id)
  · rw [if_pos h, List.map_map]
    have hmap : acc.map ((fun pw : PostWithTags => pw.post.id) ∘
        (fun pw => if pw.post.id == r.post.id then collectTagStep pw r else pw)) =
        acc.map (fun pw => pw.post.id) := by
      apply List.map_congr_left
      intro pw _
      by_cases hpw : pw.post.id == r.post.id <;>
        simp [Function.comp, hpw, collectTagStep_post]
    rw [hmap]
    constructor
    · exact Or.inl
    · rintro (h1 | rfl)
      · exact h1
      · rcases List.any_eq_true.mp h with ⟨pw, hpw, hb⟩
        exact List.mem_map.mpr ⟨pw, hpw, by simpa using hb⟩
  · rw [if_neg h, List.map_append]
    simp [collectTagStep_post]

theorem mem_ids_foldl_groupStep {pid : String} {rows : List JoinRow} {acc : List PostWithTags} :
    pid ∈ (rows.foldl groupStep acc).map (fun pw => pw.post.id) ↔
      pid ∈ acc.map (fun pw => pw.post.id) ∨ ∃ r ∈ rows, r.post.id = pid := by
  induction rows generalizing acc with
  | nil => simp
  | cons r rows ih =>
    rw [List.foldl_cons, ih, mem_ids_groupStep]
    constructor
    · rintro ((h1 | rfl) | ⟨r2, hr2, hpid⟩)
      · exact Or.inl h1
      · exact Or.inr ⟨r, List.mem_cons_self _ _, rfl⟩
      · exact Or.inr ⟨r2, List.mem_cons_of_mem _ hr2, hpid⟩
    · rintro (h1 | ⟨r2, hr2, hpid⟩)
      · exact Or.inl (Or.inl h1)
      · rcases List.mem_cons.mp hr2 with rfl | hr2
        · exact Or.inl (Or.inr hpid.symm)
        · exact Or.inr ⟨r2, hr2, hpid⟩

theorem exists_mem_groupRows {rows : List JoinRow} {pid : String} :
    (∃ q ∈ groupRows rows, q.post.id = pid) ↔ ∃ r ∈ rows, r.post.id = pid := by
  have h := @mem_ids_foldl_groupStep pid rows []
  unfold groupRows
  simpa [List.mem_map] using h

theorem exists_mem_feedRows {db : DB} {tIds : Option (List String)} {uid : Option String}
    {ex : Option (List String)} {pid : String} :
    (∃ r ∈ feedRows db tIds uid ex, r.post.id = pid) ↔
      ((∃ p ∈ db.posts, p.id = pid) ∧ feedRowKeep db tIds uid ex pid = true) := by
  unfold feedRows
  constructor
  · rintro ⟨r, hr, rfl⟩
    rw [List.mem_filter] at hr
    obtain ⟨hrf, hkeep⟩ := hr
    rw [List.mem_flatMap] at hrf
    obtain ⟨p, hp, hrp⟩ := hrf
    exact ⟨⟨p, hp, by rw [post_of_mem_joinRowsForPost hrp]⟩, hkeep⟩
  · rintro ⟨⟨p, hp, hpid⟩, hkeep⟩
    obtain ⟨r, hr⟩ := List.exists_mem_of_ne_nil _ (joinRowsForPost_ne_nil db p uid)
    have hrpost : r.post = p := post_of_mem_joinRowsForPost hr
    refine ⟨r, List.mem_filter.mpr ⟨List.mem_flatMap.mpr ⟨p, hp, hr⟩, ?_⟩, ?_⟩
    · rw [hrpost, hpid]; exact hkeep
    · rw [hrpost, hpid]

theorem feedRowKeep_include {db : DB} {ts : List String} (hne : ts ≠ []) (pid : String) :
    feedRowKeep db (some ts) none none pid = (postIdsWithAllTags db ts).contains pid := by
  unfold feedRowKeep whereSlot userExcludeClause excludeClause includeClause
  cases ts with
  | nil => exact absurd rfl hne
  | cons a as => simp [Option.orElse]

theorem contains_postIdsWithAllTags {db : DB} {ts : List String} {pid : String}
    (hne : ts ≠ []) :
    (postIdsWithAllTags db ts).contains pid = true ↔ matchCount db pid ts = ts.length := by
  unfold postIdsWithAllTags matchCount
  rw [contains_iff, List.mem_filter, List.filter_filter]
  constructor
  · rintro ⟨_, hcount⟩
    simpa using hcount
  · intro hcount
    refine ⟨?_, by simpa using hcount⟩
    have hpos : 0 < (db.postTags.filter
        (fun pt => pt.postId == pid && ts.contains pt.tagId)).length := by
      rw [hcount]
      exact List.length_pos.mpr hne
    obtain ⟨pt, hpt⟩ := List.length_pos_iff_exists_mem.mp hpos
    rw [List.mem_filter, Bool.and_eq_true] at hpt
    obtain ⟨hmem, hpid, htag⟩ := hpt
    rw [List.mem_dedup, List.mem_map]
    exact ⟨pt, List.mem_filter.mpr ⟨hmem, htag⟩, by simpa using hpid⟩

/-! ### Claim theorems -/

/-- Claim C1.  The claim states that limit/offset are applied over
distinct posts after all filtering, so that a post always appears with
its full tag list and counts once toward the page.  The code instead
applies LIMIT/OFFSET to the raw join rows (one per post-tag pair) and
collapses them only afterwards: on sampleDB (two posts; the newest has
two tags), a page of limit 2 contains only the newest post (its two join
rows fill the page), and a page of limit 1 returns that post with its
tag list truncated to a single tag. -/
theorem getPosts_paginates_join_rows :
    (getPosts sampleDB 2 0 none none none).map (fun q => q.post.id) = ["p1"] ∧
    (getPosts sampleDB 1 0 none none none).map
      (fun q => (q.post.id, q.tags.map (fun t => t.id))) = [("p1", ["t1"])] ∧
    sampleDB.posts.length = 2 := by
  exact ⟨by decide, by decide, by decide⟩

/-- Claim C3.  The claim states that the request-scoped excludeTagIds
and the viewer's stored exclusions are additive.  In the code each
.where call on the drizzle builder replaces the previous clause, so when
a viewer is present the viewer-scoped clause replaces the request-scoped
one: on sampleDB both posts carry tag t1, yet with viewer u1 (who has no
stored exclusions) and excludeTagIds = [t1] both posts are returned,
while the same excludeTagIds without a viewer correctly removes both. -/
theorem getPosts_exclusions_not_additive :
    (getPosts sampleDB 10 0 none (some "u1") (some ["t1"])).map
      (fun q => q.post.id) = ["p1", "p2"] ∧
    (getPosts sampleDB 10 0 none none (some ["t1"])).map (fun q => q.post.id) = [] := by
  exact ⟨by decide, by decide⟩

/-- Claim C5.  The claim states that concurrent getOrCreateTag calls for
the same (name, category) leave exactly one tag row.  The code performs
an unprotected check-then-insert and the schema declares only a
non-unique index on (name, category), so the select-select-insert-insert
interleaving of two callers leaves two rows for the pair. -/
theorem getOrCreateTag_race_duplicates :
    ((getOrCreateTagRace sampleDB "猫" "分類" "x1" "x2").tags.filter
      (fun t => t.name == "猫" && t.category == "分類")).length = 2 ∧
    ((getOrCreateTag sampleDB "猫" "分類" "x1").1.tags.filter
      (fun t => t.name == "猫" && t.category == "分類")).length = 1 := by
  exact ⟨by decide, by decide⟩

/-- Claim C8.  The claim states addFavorite is idempotent, a second call
for the same (user, post) leaving exactly one favorite row.  The
favorites table has no primary key and no unique constraint (schema.ts
declares only a non-unique index), so ON CONFLICT DO NOTHING never
fires and the second insert adds a second row. -/
theorem addFavorite_twice_duplicates :
    ((addFavorite (addFavorite sampleDB "u1" "p1" 0) "u1" "p1" 1).favorites.filter
      (fun f => f.userId == "u1" && f.postId == "p1")).length = 2 := by
  decide

/-- Claim C7: deletePost removes a post exactly when the caller is its
owner, reports by its boolean exactly whether a row was removed, leaves
the state unchanged when nothing matched, and never removes or alters
any non-matching row. -/
theorem deletePost_owner_only (db : DB) (id uid : String) :
    ((deletePost db id uid).2 = true ↔ ∃ p ∈ db.posts, p.id = id ∧ p.userId = uid) ∧
    ((¬ ∃ p ∈ db.posts, p.id = id ∧ p.userId = uid) → (deletePost db id uid).1 = db) ∧
    (∀ p ∈ db.posts, ¬(p.id = id ∧ p.userId = uid) → p ∈ (deletePost db id uid).1.posts) ∧
    (∀ p ∈ (deletePost db id uid).1.posts, p ∈ db.posts ∧ ¬(p.id = id ∧ p.userId = uid)) := by
  unfold deletePost
  refine ⟨?_, ?_, ?_, ?_⟩
  · simp only [decide_eq_true_eq, List.length_pos_iff_exists_mem]
    constructor
    · rintro ⟨p, hp⟩
      rw [List.mem_filter, Bool.and_eq_true, beq_iff_eq, beq_iff_eq] at hp
      exact ⟨p, hp.1, hp.2⟩
    · rintro ⟨p, hp, hpid, huid⟩
      exact ⟨p, List.mem_filter.mpr ⟨hp, by simp [hpid, huid]⟩⟩
  · intro hno
    have hall : ∀ p ∈ db.posts, (!(p.id == id && p.userId == uid)) = true := by
      intro p hp
      by_cases hid2 : p.id = id
      · by_cases huid2 : p.userId = uid
        · exact absurd ⟨p, hp, hid2, huid2⟩ hno
        · simp [huid2]
      · simp [hid2]
    have hself := List.filter_eq_self.mpr hall
    show ({ db with posts := db.posts.filter (fun p => !(p.id == id && p.userId == uid)) } : DB) = db
    rw [hself]
  · intro p hp hnot
    apply List.mem_filter.mpr
    refine ⟨hp, ?_⟩
    by_cases h1 : p.id = id
    · by_cases h2 : p.userId = uid
      · exact absurd ⟨h1, h2⟩ hnot
      · simp [h2]
    · simp [h1]
  · intro p hp
    rw [List.mem_filter] at hp
    refine ⟨hp.1, ?_⟩
    rintro ⟨h1, h2⟩
    have := hp.2
    simp [h1, h2] at this

/-- Witness for C7 at a concrete state: caller u2 does not own post p1
of sampleDB, so deletePost returns the state unchanged. -/
theorem deletePost_owner_only_witness :
    (deletePost sampleDB "p1" "u2").1 = sampleDB :=
  (deletePost_owner_only sampleDB "p1" "u2").2.1 (by decide)

/-- Claim C6: createPost is atomic.  When every tag id resolves, the
transaction commits the post row and one association row per tag id;
when some association insert fails (its tag id violates the foreign
key), the transaction rolls back, the state is the initial one and no
row of the new post is visible. -/
theorem createPost_atomic (db : DB) (post : Post) (tagIds : List String)
    (hfresh : ∀ q ∈ db.posts, q.id ≠ post.id) :
    (tagIds.all (fun i => db.tags.any (fun t => t.id == i)) = false →
      createPost db post tagIds = (db, none) ∧
      ∀ q ∈ (createPost db post tagIds).1.posts, q.id ≠ post.id) ∧
    (tagIds.all (fun i => db.tags.any (fun t => t.id == i)) = true →
      (createPost db post tagIds).1.posts = db.posts ++ [post] ∧
      (createPost db post tagIds).1.postTags =
        db.postTags ++ tagIds.map (fun i => { postId := post.id, tagId := i })) := by
  constructor
  · intro hfail
    have hne : tagIds ≠ [] := by
      rintro rfl
      simp at hfail
    have hlen : 0 < tagIds.length := List.length_pos.mpr hne
    have heq : createPost db post tagIds = (db, none) := by
      unfold createPost
      rw [if_pos hlen, if_neg (by rw [hfail]; exact Bool.false_ne_true)]
    exact ⟨heq, by rw [heq]; exact hfresh⟩
  · intro hok
    unfold createPost
    by_cases hlen : 0 < tagIds.length
    · rw [if_pos hlen, if_pos hok]
      exact ⟨rfl, rfl⟩
    · rw [if_neg hlen]
      have : tagIds = [] := by
        rcases tagIds with _ | ⟨a, as⟩
        · rfl
        · exact absurd (by simp) hlen
      subst this
      simp

/-- Witness for C6 at a concrete state: creating a post of sampleDB with
an unresolvable tag id rolls back (state unchanged, no post returned),
while creating it with the two existing tags commits the post row and
both association rows. -/
theorem createPost_atomic_witness :
    (createPost sampleDB
        { id := "p3", userId := "u1", imageUrl := "i3", caption := none, createdAt := 3 }
        ["missing"] = (sampleDB, none)) ∧
    (createPost sampleDB
        { id := "p3", userId := "u1", imageUrl := "i3", caption := none, createdAt := 3 }
        ["t1", "t2"]).1.posts = sampleDB.posts ++
          [{ id := "p3", userId := "u1", imageUrl := "i3", caption := none, createdAt := 3 }] := by
  refine ⟨?_, ?_⟩
  · exact ((createPost_atomic sampleDB _ ["missing"] (by decide)).1 (by decide)).1
  · exact ((createPost_atomic sampleDB _ ["t1", "t2"] (by decide)).2 (by decide)).1

/-- Claim C10: getPost applies neither the viewer's stored exclusions
nor any request exclusion — an existing post is returned by id even when
it carries a tag in the viewer's zoning list. -/
theorem getPost_ignores_zoning (db : DB) (id uid : String) (p : Post)
    (hp : p ∈ db.posts) (hid : p.id = id)
    (_hzoning : ∃ pt ∈ db.postTags, pt.postId = id ∧ pt.tagId ∈ userExcludedTagIds db uid) :
    ∃ pw, getPost db id (some uid) = some pw ∧ pw.post.id = id := by
  unfold getPost
  have hmem : p ∈ db.posts.filter (fun q => q.id == id) :=
    List.mem_filter.mpr ⟨hp, by simp [hid]⟩
  obtain ⟨r, hr⟩ := List.exists_mem_of_ne_nil _ (joinRowsForPost_ne_nil db p (some uid))
  have hrmem : r ∈ (db.posts.filter (fun q => q.id == id)).flatMap
      (fun q => joinRowsForPost db q (some uid)) :=
    List.mem_flatMap.mpr ⟨p, hmem, hr⟩
  rcases hres : (db.posts.filter (fun q => q.id == id)).flatMap
      (fun q => joinRowsForPost db q (some uid)) with _ | ⟨r0, rest⟩
  · rw [hres] at hrmem
    exact absurd hrmem (List.not_mem_nil r)
  · rw [hres]
    refine ⟨_, rfl, ?_⟩
    have hr0 : r0 ∈ (db.posts.filter (fun q => q.id == id)).flatMap
        (fun q => joinRowsForPost db q (some uid)) := by
      rw [hres]
      exact List.mem_cons_self _ _
    rw [List.mem_flatMap] at hr0
    obtain ⟨q, hq, hr0q⟩ := hr0
    have hq2 := List.mem_filter.mp hq
    have : r0.post = q := post_of_mem_joinRowsForPost hr0q
    rw [foldl_collectTagStep_post]
    rw [this]
    exact beq_iff_eq.mp hq2.2

/-- Witness for C10 at a concrete state: in sampleDBZoned the viewer u1
has excluded tag t1, which post p1 carries, yet getPost returns p1. -/
theorem getPost_ignores_zoning_witness :
    ∃ pw, getPost sampleDBZoned "p1" (some "u1") = some pw ∧ pw.post.id = "p1" :=
  getPost_ignores_zoning sampleDBZoned "p1" "u1" samplePostA
    (by decide) (by decide) (by decide)

/-- Claim C2 counterexample.  As stated, the claim quantifies over every
getPosts call with a non-empty includeTagIds list; but when a viewerId
is also passed, the viewer-scoped .where call replaces the include
clause, so on sampleDB the include list [t2] together with viewer u1
returns post p2 as well, whose matching association-row count is 0, not
[t2].length = 1. -/
theorem getPosts_include_overridden_cex :
    (getPosts sampleDB 10 0 (some ["t2"]) (some "u1") none).map (fun q => q.post.id) =
      ["p1", "p2"] ∧
    matchCount sampleDB "p2" ["t2"] = 0 := by
  exact ⟨by decide, by decide⟩

/-- Claim C2 (amended): when getPosts is called with a non-empty
includeTagIds list, no viewer and no request-scoped exclusions, and the
page covers all surviving join rows (offset 0, limit at least their
number — pagination counts join rows, claim C1), the result contains
exactly those posts whose count of matching post-tag association rows
equals includeTagIds.length.  In particular a duplicated id makes the
count test unsatisfiable for a post carrying the tag once. -/
theorem getPosts_include_filter (db : DB) (tagIds : List String) (limit : Nat) (pid : String)
    (hne : tagIds ≠ [])
    (hlim : (feedRows db (some tagIds) none none).length ≤ limit) :
    (∃ q ∈ getPosts db limit 0 (some tagIds) none none, q.post.id = pid) ↔
      (∃ p ∈ db.posts, p.id = pid) ∧ matchCount db pid tagIds = tagIds.length := by
  unfold getPosts
  rw [List.drop_zero, List.take_of_length_le
    (by rw [List.length_insertionSort]; exact hlim)]
  rw [exists_mem_groupRows]
  have hstep : (∃ r ∈ (feedRows db (some tagIds) none none).insertionSort
      (fun a b => b.post.createdAt ≤ a.post.createdAt), r.post.id = pid) ↔
      (∃ r ∈ feedRows db (some tagIds) none none, r.post.id = pid) :=
    exists_congr (fun r => and_congr_left (fun _ => List.mem_insertionSort _))
  rw [hstep, exists_mem_feedRows, feedRowKeep_include hne,
    contains_postIdsWithAllTags hne]

/-- Witness for C2 at a concrete state: on sampleDB, filtering by both
tags [t1, t2] returns post p1, which carries both. -/
theorem getPosts_include_filter_witness :
    "p1" ∈ (getPosts sampleDB 10 0 (some ["t1", "t2"]) none none).map
      (fun q => q.post.id) :=
  List.mem_map.mpr
    ((getPosts_include_filter sampleDB ["t1", "t2"] 10 "p1"
      (by decide) (by decide)).mpr (by decide))

/-- Claim C4 counterexample.  The claim says validatePostTags is false
only for an empty list, an unresolvable id, or a missing classification
tag; but for the duplicate list [t1, t1] (t1 an existing classification
tag of sampleDB) the SELECT returns one row while tagIds.length is 2, so
the code returns false where the claimed description yields true. -/
theorem validatePostTags_duplicate_ids_cex :
    validatePostTags sampleDB ["t1", "t1"] = false ∧
    specValidateForPost sampleDB ["t1", "t1"] = true := by
  exact ⟨by decide, by decide⟩

theorem filter_ids_length_eq {db : DB} {tagIds : List String}
    (hnd : (db.tags.map (fun t => t.id)).Nodup) :
    ((db.tags.filter (fun t => tagIds.contains t.id)).length = tagIds.length) ↔
      (tagIds.Nodup ∧ ∀ i ∈ tagIds, ∃ t ∈ db.tags, t.id = i) := by
  have hstep1 : (db.tags.map (fun t => t.id)).filter (fun i => tagIds.contains i) =
      (db.tags.filter (fun t => tagIds.contains t.id)).map (fun t => t.id) :=
    List.filter_map (fun t : Tag => t.id) db.tags
  have hlen1 : (db.tags.filter (fun t => tagIds.contains t.id)).length =
      ((db.tags.map (fun t => t.id)).filter (fun i => tagIds.contains i)).length := by
    rw [hstep1, List.length_map]
  have hfnodup : ((db.tags.map (fun t => t.id)).filter
      (fun i => tagIds.contains i)).Nodup := hnd.filter _
  have hcard : ((db.tags.map (fun t => t.id)).filter
        (fun i => tagIds.contains i)).toFinset.card =
      ((db.tags.map (fun t => t.id)).filter (fun i => tagIds.contains i)).length :=
    List.toFinset_card_of_nodup hfnodup
  have htf : ((db.tags.map (fun t => t.id)).filter
        (fun i => tagIds.contains i)).toFinset =
      (db.tags.map (fun t => t.id)).toFinset.filter (fun i => tagIds.contains i) :=
    List.toFinset_filter _ _
  have hcongr : ∀ i ∈ (db.tags.map (fun t => t.id)).toFinset,
      (tagIds.contains i = true) ↔ i ∈ tagIds.toFinset := by
    intro i _
    rw [contains_iff, List.mem_toFinset]
  have hinter : (db.tags.map (fun t => t.id)).toFinset.filter
        (fun i => tagIds.contains i) =
      (db.tags.map (fun t => t.id)).toFinset ∩ tagIds.toFinset := by
    rw [Finset.filter_congr hcongr, Finset.filter_mem_eq_inter]
  have hmain : (db.tags.filter (fun t => tagIds.contains t.id)).length =
      ((db.tags.map (fun t => t.id)).toFinset ∩ tagIds.toFinset).card := by
    rw [hlen1, ← hcard, htf, hinter]
  have hsub : (db.tags.map (fun t => t.id)).toFinset ∩ tagIds.toFinset ⊆
      tagIds.toFinset := Finset.inter_subset_right
  have hTcard : tagIds.toFinset.card ≤ tagIds.length := List.toFinset_card_le tagIds
  rw [hmain]
  constructor
  · intro heq
    have h1 : ((db.tags.map (fun t => t.id)).toFinset ∩ tagIds.toFinset).card ≤
        tagIds.toFinset.card := Finset.card_le_card hsub
    have hT : tagIds.toFinset.card = tagIds.length := by
      omega
    have hnodup : tagIds.Nodup := by
      have hmt := @Multiset.toFinset_card_eq_card_iff_nodup String _
        (tagIds : Multiset String)
      rw [Multiset.coe_card, Multiset.coe_nodup] at hmt
      exact hmt.mp hT
    have hcards : tagIds.toFinset.card ≤
        ((db.tags.map (fun t => t.id)).toFinset ∩ tagIds.toFinset).card := by
      omega
    have hTE : tagIds.toFinset ⊆ (db.tags.map (fun t => t.id)).toFinset := by
      have hTeq := Finset.eq_of_subset_of_card_le hsub hcards
      rw [← hTeq]
      exact Finset.inter_subset_left
    refine ⟨hnodup, ?_⟩
    intro i hi
    have hiE := hTE (List.mem_toFinset.mpr hi)
    rw [List.mem_toFinset] at hiE
    exact List.mem_map.mp hiE
  · rintro ⟨hnodup, hresolve⟩
    have hT : tagIds.toFinset.card = tagIds.length := List.toFinset_card_of_nodup hnodup
    have hTE : tagIds.toFinset ⊆ (db.tags.map (fun t => t.id)).toFinset := by
      intro i hi
      rw [List.mem_toFinset] at hi ⊢
      obtain ⟨t, ht, hti⟩ := hresolve i hi
      exact List.mem_map.mpr ⟨t, ht, hti⟩
    rw [Finset.inter_eq_right.mpr hTE, hT]

/-- Claim C4 (amended): validatePostTags returns true exactly when
tagIds is non-empty, its ids are pairwise distinct and each resolves to
an existing tag, and some resolved tag has the classification category;
a list with duplicate ids is rejected even when every id resolves
(because the row count of the SELECT then falls short of
tagIds.length).  Stated for states whose tag ids are unique, as tags.id
is the primary key. -/
theorem validatePostTags_characterization (db : DB) (tagIds : List String)
    (hnd : (db.tags.map (fun t => t.id)).Nodup) :
    validatePostTags db tagIds = true ↔
      tagIds ≠ [] ∧ tagIds.Nodup ∧
      (∀ i ∈ tagIds, ∃ t ∈ db.tags, t.id = i) ∧
      (∃ t ∈ db.tags, t.id ∈ tagIds ∧ t.category = "分類") := by
  unfold validatePostTags
  cases tagIds with
  | nil => simp
  | cons a as =>
    rw [if_neg (by simp)]
    by_cases hR : (db.tags.filter (fun t => (a :: as).contains t.id)).length =
        (a :: as).length
    · rw [if_neg (by rw [bne_iff_ne]; exact not_not_intro hR)]
      constructor
      · intro hany
        obtain ⟨t, ht, hcat⟩ := List.any_eq_true.mp hany
        rw [List.mem_filter] at ht
        obtain ⟨hnodup, hresolve⟩ := (filter_ids_length_eq hnd).mp hR
        exact ⟨List.cons_ne_nil a as, hnodup, hresolve,
          ⟨t, ht.1, contains_iff.mp ht.2, beq_iff_eq.mp hcat⟩⟩
      · rintro ⟨_, _, _, t, ht, hid, hcat⟩
        exact List.any_eq_true.mpr
          ⟨t, List.mem_filter.mpr ⟨ht, contains_iff.mpr hid⟩, by simp [hcat]⟩
    · rw [if_pos (by rw [bne_iff_ne]; exact hR)]
      simp only [Bool.false_eq_true, false_iff]
      rintro ⟨_, hnodup, hresolve, _⟩
      exact hR ((filter_ids_length_eq hnd).mpr ⟨hnodup, hresolve⟩)

/-- Witness for C4 at a concrete state: on sampleDB the pair [t1, t2]
(distinct, both existing, t1 a classification tag) validates. -/
theorem validatePostTags_characterization_witness :
    validatePostTags sampleDB ["t1", "t2"] = true :=
  (validatePostTags_characterization sampleDB ["t1", "t2"] (by decide)).mpr (by decide)

/-- Claim C9 counterexample.  The claim says listByCategory fails with a
dedicated InvalidCategory error for a category outside the four
enumerated values; the handler performs no such validation — the raw
value reaches the store, the statement fails there, and the route
answers with the generic 500 store-failure response instead of a
validation error (400). -/
theorem getTagsRoute_invalid_category_cex :
    (getTagsRoute sampleDB (some "犬種")).status = 500 ∧
    ¬ (getTagsRoute sampleDB (some "犬種")).status = 400 := by
  exact ⟨by decide, by decide⟩

/-- Claim C9 (amended): for a category among the four enumerated values,
getTagsByCategory returns the tags of that category ordered by name (the
route answers 200); for a non-empty category outside them no dedicated
InvalidCategory error exists — the unvalidated value fails inside the
store and the route answers with the generic 500 response. -/
theorem getTagsByCategory_behavior (db : DB) (c : String) :
    (tagCategoryEnum.contains c = true →
      ∃ ts, getTagsByCategory db c = Except.ok ts ∧
        List.Sorted (fun a b : Tag => a.name ≤ b.name) ts ∧
        ts.Perm (db.tags.filter (fun t => t.category == c)) ∧
        (getTagsRoute db (some c)).status = 200) ∧
    (tagCategoryEnum.contains c = false → c.isEmpty = false →
      getTagsByCategory db c = Except.error "invalid input value for enum tag_category" ∧
      (getTagsRoute db (some c)).status = 500) := by
  constructor
  · intro hc
    haveI htot : IsTotal Tag (fun a b => a.name ≤ b.name) :=
      ⟨fun a b => le_total a.name b.name⟩
    haveI htrans : IsTrans Tag (fun a b => a.name ≤ b.name) :=
      ⟨fun a b d h1 h2 => le_trans h1 h2⟩
    have hok : getTagsByCategory db c = Except.ok
        ((db.tags.filter (fun t => t.category == c)).insertionSort
          (fun a b => a.name ≤ b.name)) := by
      unfold getTagsByCategory
      rw [if_pos hc]
    have hcne : c.isEmpty = false := by
      have hmem : c ∈ tagCategoryEnum := contains_iff.mp hc
      fin_cases hmem <;> decide
    refine ⟨_, hok, List.sorted_insertionSort _ _, List.perm_insertionSort _ _, ?_⟩
    simp only [getTagsRoute]
    rw [if_neg (by rw [hcne]; exact Bool.false_ne_true), hok]
  · intro hc hcne
    have herr : getTagsByCategory db c =
        Except.error "invalid input value for enum tag_category" := by
      unfold getTagsByCategory
      rw [if_neg (by intro h; rw [hc] at h; exact Bool.false_ne_true h)]
    refine ⟨herr, ?_⟩
    simp only [getTagsRoute]
    rw [if_neg (by rw [hcne]; exact Bool.false_ne_true), herr]

/-- Witness for C9 at a concrete state: on sampleDB the valid category
分類 answers 200 and the invalid category 犬種 answers 500. -/
theorem getTagsByCategory_behavior_witness :
    (getTagsRoute sampleDB (some "分類")).status = 200 ∧
    (getTagsRoute sampleDB (some "犬種")).status = 500 := by
  constructor
  · obtain ⟨ts, hok, hsorted, hperm, hstat⟩ :=
      (getTagsByCategory_behavior sampleDB "分類").1 (by decide)
    exact hstat
  · exact ((getTagsByCategory_behavior sampleDB "犬種").2 (by decide) (by decide)).2

end AnimalShare
